import Mathlib

/-!
Verification of the task-queue and signal-slot core of the
modern-signal-slot repository.  The task-queue model is a shallow
embedding of `src/signal-slot/core/task_queue_stdlib.cpp` /
`task_queue_stdlib.hpp`: tasks are opaque identifiers, the monotonic
clock is a natural-number instant (millisecond granularity), and the
`uint64_t` posting counter wraps modulo `2 ^ 64`.
-/

namespace SignalSlot

namespace TaskQueueStdlib

/-- Task identifier standing for a `std::unique_ptr<QueuedTask>`. -/
abbrev Task := Nat

/-- The modulus of the `uint64_t` posting counter. -/
def U64 : Nat := 2 ^ 64

/-- Key of the delayed map (`DelayedEntryTimeout` in `task_queue_stdlib.hpp`). -/
structure DelayedEntryTimeout where
  next_fire_at : Nat
  order : Nat
deriving DecidableEq

/-- `DelayedEntryTimeout::operator<`:
`std::tie(next_fire_at, order) < std::tie(o.next_fire_at, o.order)`,
i.e. lexicographic comparison of the fire time and the posting ordinal. -/
def DelayedEntryTimeout.lt (a b : DelayedEntryTimeout) : Bool :=
  decide (a.next_fire_at < b.next_fire_at) ||
    (decide (a.next_fire_at = b.next_fire_at) && decide (a.order < b.order))

/-- State of one `TaskQueueStdlib`: quit flag, posting counter, the immediate
FIFO (`pending_queue_`, front of the list = front of the queue) and the
delayed `std::map` (`delayed_queue_`, kept sorted by `DelayedEntryTimeout.lt`,
head of the list = `begin()`). -/
structure TaskQueueState where
  thread_should_quit : Bool
  thread_posting_order : Nat
  pending_queue : List (Nat × Task)
  delayed_queue : List (DelayedEntryTimeout × Task)
deriving DecidableEq

/-- Sorted insertion into the delayed map, mirroring
`delayed_queue_[delayed_entry] = std::move(task)`: `std::map::operator[]`
inserts at the sorted position, overwriting an entry whose key compares
equal. -/
def delayedInsert (k : DelayedEntryTimeout) (t : Task) :
    List (DelayedEntryTimeout × Task) → List (DelayedEntryTimeout × Task)
  | [] => [(k, t)]
  | (k2, t2) :: rest =>
    if DelayedEntryTimeout.lt k k2 then (k, t) :: (k2, t2) :: rest
    else if k = k2 then (k, t) :: rest
    else (k2, t2) :: delayedInsert k t rest

/-- `TaskQueueStdlib::PostTask`: stamp the task with `++thread_posting_order_`
and push it at the back of `pending_queue_` (then `NotifyWake`). -/
def PostTask (st : TaskQueueState) (task : Task) : TaskQueueState :=
  let ord := (st.thread_posting_order + 1) % U64
  { st with
      thread_posting_order := ord
      pending_queue := st.pending_queue ++ [(ord, task)] }

/-- `TaskQueueStdlib::PostDelayedTask`: record
`next_fire_at = steady_clock::now() + delay`, stamp the entry with
`++thread_posting_order_` and insert it into `delayed_queue_`
(then `NotifyWake`).  `now` is the clock reading taken at the top of the
function. -/
def PostDelayedTask (st : TaskQueueState) (task : Task) (delay : Nat)
    (now : Nat) : TaskQueueState :=
  let fire := now + delay
  let ord := (st.thread_posting_order + 1) % U64
  { st with
      thread_posting_order := ord
      delayed_queue := delayedInsert ⟨fire, ord⟩ task st.delayed_queue }

/-- `TaskQueueStdlib::PostDelayedHighPrecisionTask`: forwards to
`PostDelayedTask` unchanged. -/
def PostDelayedHighPrecisionTask (st : TaskQueueState) (task : Task)
    (delay : Nat) (now : Nat) : TaskQueueState :=
  PostDelayedTask st task delay now

/-- `TaskQueueStdlib::NextTask`: the result record of `GetNextTask`.
`sleep_time` is the `std::chrono::milliseconds` value, `0` by default. -/
structure NextTask where
  final_task : Bool := false
  run_task : Option Task := none
  sleep_time : Nat := 0
deriving DecidableEq

/-- `TaskQueueStdlib::GetNextTask`, translated branch for branch:
quit check first; then, when the delayed map is non-empty, the ready test
`now >= delay_info.next_fire_at`; when ready, the immediate head wins only
if `entry_order < delay_info.order`; when not ready, `sleep_time` is set and
control falls through to the immediate-queue check.  Returns the `NextTask`
record together with the updated queue state. -/
def GetNextTask (st : TaskQueueState) (now : Nat) :
    NextTask × TaskQueueState :=
  if st.thread_should_quit then
    ({ final_task := true }, st)
  else
    match st.delayed_queue with
    | (delay_info, delay_run) :: drest =>
      if delay_info.next_fire_at ≤ now then
        match st.pending_queue with
        | (entry_order, entry_run) :: prest =>
          if entry_order < delay_info.order then
            ({ run_task := some entry_run }, { st with pending_queue := prest })
          else
            ({ run_task := some delay_run }, { st with delayed_queue := drest })
        | [] =>
          ({ run_task := some delay_run }, { st with delayed_queue := drest })
      else
        match st.pending_queue with
        | (_, entry_run) :: prest =>
          ({ run_task := some entry_run,
             sleep_time := delay_info.next_fire_at - now },
           { st with pending_queue := prest })
        | [] =>
          ({ sleep_time := delay_info.next_fire_at - now }, st)
    | [] =>
      match st.pending_queue with
      | (_, entry_run) :: prest =>
        ({ run_task := some entry_run }, { st with pending_queue := prest })
      | [] =>
        ({ }, st)

/-- What one iteration of `TaskQueueStdlib::ProcessTasks` does with the
`NextTask` it obtained: `exit` is the `final_task` break, `run t` invokes the
task, `sleepFor d` blocks on `notify_cv_.wait_for` with timeout `d > 0`, and
`spin` is the remaining case — `sleep_time.count() > 0` is false, so the loop
iterates again immediately without blocking. -/
inductive WorkerAction where
  | exit
  | run (t : Task)
  | sleepFor (d : Nat)
  | spin
deriving DecidableEq

/-- One iteration of the worker loop `TaskQueueStdlib::ProcessTasks`:
call `GetNextTask`, break on `final_task`, otherwise run the task when one
was returned, otherwise wait only when `sleep_time.count() > 0`. -/
def processTasksStep (st : TaskQueueState) (now : Nat) :
    WorkerAction × TaskQueueState :=
  let r := GetNextTask st now
  if r.1.final_task then (WorkerAction.exit, r.2)
  else
    match r.1.run_task with
    | some t => (WorkerAction.run t, r.2)
    | none =>
      if r.1.sleep_time > 0 then (WorkerAction.sleepFor r.1.sleep_time, r.2)
      else (WorkerAction.spin, r.2)

/-- `TaskQueueStdlib::Delete`: `assert(!IsCurrent())`, then set
`thread_should_quit_` under the lock, `NotifyWake`, and free the queue.
`isCurrent` is the value of `IsCurrent()` on the calling thread; `none`
models the assertion firing. -/
def Delete (st : TaskQueueState) (isCurrent : Bool) : Option TaskQueueState :=
  if isCurrent then none
  else some { st with thread_should_quit := true }

/-- All posting ordinals currently stamped on tasks held by the queue. -/
def ordinalsOf (st : TaskQueueState) : List Nat :=
  st.pending_queue.map Prod.fst ++ st.delayed_queue.map (fun e => e.1.order)

/-- The tasks run by iterating the worker loop `fuel` times, stopping at the
first iteration that does not run a task. -/
def runTrace (st : TaskQueueState) (now : Nat) : Nat → List Task
  | 0 => []
  | n + 1 =>
    match processTasksStep st now with
    | (WorkerAction.run t, st2) => t :: runTrace st2 now n
    | _ => []

/-- The delayed map is strictly sorted by `DelayedEntryTimeout::operator<`
along the list, as `std::map` keeps it. -/
def delayedSorted (l : List (DelayedEntryTimeout × Task)) : Prop :=
  List.Chain' (fun a b => DelayedEntryTimeout.lt a.1 b.1 = true) l

end TaskQueueStdlib

namespace SignalModel

/-- Modelled from the spec: the repository's `core/signal.hpp` (the typed
`signal` template) is not among the provided sources, so the connection
record is taken from the spec's data model: an identity tag used for Unique
and the flag/state bits `(unique, singleShot, blocked, consumed, alive)`.
`rid` is the record's handle; the erased callable itself is not modelled. -/
structure ConnRecord where
  rid : Nat
  identity : Nat
  unique : Bool
  singleShot : Bool
  blocked : Bool
  consumed : Bool
  alive : Bool
deriving DecidableEq

instance : Inhabited ConnRecord :=
  ⟨{ rid := 0, identity := 0, unique := false, singleShot := false,
     blocked := false, consumed := false, alive := false }⟩

/-- Modelled from the spec: a signal owns an ordered list of connection
records; `nextId` supplies fresh record handles. -/
structure SignalState where
  records : List ConnRecord
  nextId : Nat
deriving DecidableEq

/-- Modelled from the spec: the search connect performs for an alive record
with the same identity. -/
def findAlive (idt : Nat) (l : List ConnRecord) : Option ConnRecord :=
  l.find? (fun r => r.alive && r.identity == idt)

/-- Modelled from the spec (connect semantics, `core/signal.hpp` missing):
if the policy carries Unique and an alive record with the same identity
already exists, connect is a no-op returning a handle to the existing
record; otherwise a new record is appended and a fresh handle returned. -/
def connect (sig : SignalState) (idt : Nat) (uniq oneShot : Bool) :
    Nat × SignalState :=
  match (if uniq then findAlive idt sig.records else none) with
  | some r => (r.rid, sig)
  | none =>
    (sig.nextId,
      { records := sig.records ++
          [{ rid := sig.nextId, identity := idt, unique := uniq,
             singleShot := oneShot, blocked := false, consumed := false,
             alive := true }],
        nextId := sig.nextId + 1 })

/-- Modelled from the spec (emit dispatch of one record, `core/signal.hpp`
missing): a live, non-blocked, non-consumed record is invoked, and when it
carries SingleShot its `consumed` flag is set before the next emission;
otherwise the record is skipped unchanged.  Returns (invoked?, updated
record). -/
def dispatchRecord (r : ConnRecord) : Bool × ConnRecord :=
  if r.alive && !r.blocked && !r.consumed then
    (true, if r.singleShot then { r with consumed := true } else r)
  else (false, r)

/-- Modelled from the spec: one emission dispatches every record of the
signal in insertion order. -/
def emitSig (sig : SignalState) : SignalState :=
  { sig with records := sig.records.map (fun r => (dispatchRecord r).2) }

/-- Number of alive records with the given identity. -/
def countAlive (sig : SignalState) (idt : Nat) : Nat :=
  sig.records.countP (fun r => r.alive && r.identity == idt)

/-- Number of slot invocations that one emission performs for records with
the given identity. -/
def invokedCountFor (sig : SignalState) (idt : Nat) : Nat :=
  sig.records.countP (fun r => (dispatchRecord r).1 && r.identity == idt)

/-- The signal after `n` successive emissions. -/
def emitIter (sig : SignalState) : Nat → SignalState
  | 0 => sig
  | n + 1 => emitIter (emitSig sig) n

/-- The record at position `i` of the signal's list (a default dead record
when out of range). -/
def recordAt (sig : SignalState) (i : Nat) : ConnRecord :=
  sig.records.getD i default

/-- Whether emission number `k` (counting from 0) invokes the record at
position `i`. -/
def invokedAt (sig : SignalState) (i k : Nat) : Bool :=
  (dispatchRecord (recordAt (emitIter sig k) i)).1

/-- How many of the first `n` emissions invoke the record at position `i`. -/
def invCount (sig : SignalState) (i : Nat) : Nat → Nat
  | 0 => 0
  | n + 1 =>
    (if (dispatchRecord (recordAt sig i)).1 then 1 else 0) +
      invCount (emitSig sig) i n

end SignalModel

end SignalSlot

namespace SignalSlot

open TaskQueueStdlib

/-- C9: `PostDelayedHighPrecisionTask(task, delay)` is exactly
`PostDelayedTask(task, delay)`: the high-precision variant forwards to the
ordinary delayed post for every state, task, delay and clock reading. -/
theorem postDelayedHighPrecision_eq_postDelayed
    (st : TaskQueueState) (task : Task) (delay : Nat) (now : Nat) :
    PostDelayedHighPrecisionTask st task delay now =
      PostDelayedTask st task delay now := rfl

/-- C10: once the quit flag is set, `GetNextTask` returns the final-exit
record without removing or returning any task — the queue state is left
unchanged even when immediate or delayed tasks are pending — and the worker
loop iteration exits. -/
theorem getNextTask_after_quit (st : TaskQueueState) (now : Nat)
    (h : st.thread_should_quit = true) :
    GetNextTask st now =
        ({ final_task := true, run_task := none, sleep_time := 0 }, st)
      ∧ processTasksStep st now = (WorkerAction.exit, st) := by
  constructor
  · simp [GetNextTask, h]
  · simp [processTasksStep, GetNextTask, h]

/-- Witness for C10: a queue with the quit flag set and tasks still pending
in both internal queues exits without touching them. -/
theorem getNextTask_after_quit_witness :
    (({ thread_should_quit := true, thread_posting_order := 3,
        pending_queue := [(1, 10)],
        delayed_queue := [(⟨5, 2⟩, 20)] } : TaskQueueState).thread_should_quit
          = true)
    ∧ (GetNextTask
          { thread_should_quit := true, thread_posting_order := 3,
            pending_queue := [(1, 10)], delayed_queue := [(⟨5, 2⟩, 20)] } 7 =
        ({ final_task := true, run_task := none, sleep_time := 0 },
          { thread_should_quit := true, thread_posting_order := 3,
            pending_queue := [(1, 10)], delayed_queue := [(⟨5, 2⟩, 20)] })
      ∧ processTasksStep
          { thread_should_quit := true, thread_posting_order := 3,
            pending_queue := [(1, 10)], delayed_queue := [(⟨5, 2⟩, 20)] } 7 =
        (WorkerAction.exit,
          { thread_should_quit := true, thread_posting_order := 3,
            pending_queue := [(1, 10)], delayed_queue := [(⟨5, 2⟩, 20)] })) :=
  ⟨rfl, getNextTask_after_quit _ 7 rfl⟩

/-- C1: with both queues non-empty, the head delayed task ready
(`next_fire_at ≤ now`) and the quit flag clear, `GetNextTask` pops and
returns the immediate head exactly when its ordinal is less than the ready
delayed entry's ordinal, and otherwise removes and returns the ready delayed
task; so a ready delayed task never runs while an immediate task with a
smaller ordinal (posted strictly before it) is pending. -/
theorem getNextTask_both_ready (st : TaskQueueState) (now : Nat)
    (o : Nat) (t : Task) (ps : List (Nat × Task))
    (k : DelayedEntryTimeout) (dt : Task)
    (ds : List (DelayedEntryTimeout × Task))
    (hq : st.thread_should_quit = false)
    (hp : st.pending_queue = (o, t) :: ps)
    (hd : st.delayed_queue = (k, dt) :: ds)
    (hready : k.next_fire_at ≤ now) :
    GetNextTask st now =
      if o < k.order then
        ({ run_task := some t }, { st with pending_queue := ps })
      else
        ({ run_task := some dt }, { st with delayed_queue := ds }) := by
  by_cases hlt : o < k.order
  · simp [GetNextTask, hq, hp, hd, hready, hlt]
  · simp [GetNextTask, hq, hp, hd, hready, hlt]

/-- Witness for C1, both directions of the selection rule: with the
immediate head's ordinal 1 below the ready delayed ordinal 2 the immediate
task 10 runs; with the immediate head's ordinal 4 above it the delayed task
20 runs. -/
theorem getNextTask_both_ready_witness :
    ((({ thread_should_quit := false, thread_posting_order := 4,
         pending_queue := [(1, 10)],
         delayed_queue := [(⟨5, 2⟩, 20)] } : TaskQueueState).thread_should_quit
            = false)
      ∧ (GetNextTask
            { thread_should_quit := false, thread_posting_order := 4,
              pending_queue := [(1, 10)], delayed_queue := [(⟨5, 2⟩, 20)] } 9 =
          if 1 < (⟨5, 2⟩ : DelayedEntryTimeout).order then
            ({ run_task := some 10 },
              { thread_should_quit := false, thread_posting_order := 4,
                pending_queue := ([] : List (Nat × Task)),
                delayed_queue := [(⟨5, 2⟩, 20)] })
          else
            ({ run_task := some 20 },
              { thread_should_quit := false, thread_posting_order := 4,
                pending_queue := [(1, 10)],
                delayed_queue := ([] : List (DelayedEntryTimeout × Task)) })))
    ∧ (GetNextTask
          { thread_should_quit := false, thread_posting_order := 4,
            pending_queue := [(4, 11)], delayed_queue := [(⟨5, 2⟩, 20)] } 9 =
        if 4 < (⟨5, 2⟩ : DelayedEntryTimeout).order then
          ({ run_task := some 11 },
            { thread_should_quit := false, thread_posting_order := 4,
              pending_queue := ([] : List (Nat × Task)),
              delayed_queue := [(⟨5, 2⟩, 20)] })
        else
          ({ run_task := some 20 },
            { thread_should_quit := false, thread_posting_order := 4,
              pending_queue := [(4, 11)],
              delayed_queue := ([] : List (DelayedEntryTimeout × Task)) })) :=
  ⟨⟨rfl, getNextTask_both_ready _ 9 1 10 [] ⟨5, 2⟩ 20 [] rfl rfl rfl
      (by decide)⟩,
    getNextTask_both_ready _ 9 4 11 [] ⟨5, 2⟩ 20 [] rfl rfl rfl (by decide)⟩

/-- C2 (refuting theorem): on an idle queue — quit flag clear, both internal
queues empty — `GetNextTask` returns `sleep_time = 0`, so the worker-loop
iteration takes the `spin` branch: the guard `sleep_time.count() > 0` in
`ProcessTasks` is false and the loop iterates again immediately instead of
blocking on the wake condition. -/
theorem idle_worker_spins_not_blocks :
    GetNextTask
        { thread_should_quit := false, thread_posting_order := 0,
          pending_queue := [], delayed_queue := [] } 5 =
      ({ final_task := false, run_task := none, sleep_time := 0 },
        { thread_should_quit := false, thread_posting_order := 0,
          pending_queue := [], delayed_queue := [] })
    ∧ processTasksStep
        { thread_should_quit := false, thread_posting_order := 0,
          pending_queue := [], delayed_queue := [] } 5 =
      (WorkerAction.spin,
        { thread_should_quit := false, thread_posting_order := 0,
          pending_queue := [], delayed_queue := [] }) := by
  constructor
  · rfl
  · rfl

theorem delayedInsert_mem (k : DelayedEntryTimeout) (t : Task) :
    ∀ l : List (DelayedEntryTimeout × Task), (k, t) ∈ delayedInsert k t l
  | [] => by simp [delayedInsert]
  | (k2, t2) :: rest => by
    simp only [delayedInsert]
    split
    · exact List.mem_cons_self _ _
    · split
      · exact List.mem_cons_self _ _
      · exact List.mem_cons_of_mem _ (delayedInsert_mem k t rest)

theorem getNextTask_delayed_shape (st : TaskQueueState) (now : Nat) :
    (GetNextTask st now).2.delayed_queue = st.delayed_queue
    ∨ ∃ k dt rest, st.delayed_queue = (k, dt) :: rest
        ∧ (GetNextTask st now).2.delayed_queue = rest
        ∧ (GetNextTask st now).1.run_task = some dt
        ∧ k.next_fire_at ≤ now := by
  by_cases hq : st.thread_should_quit
  · left; simp [GetNextTask, hq]
  · cases hdq : st.delayed_queue with
    | nil =>
      left
      cases hp : st.pending_queue with
      | nil => simp [GetNextTask, hq, hdq, hp]
      | cons p ps => simp [GetNextTask, hq, hdq, hp]
    | cons hd tl =>
      obtain ⟨k, dt⟩ := hd
      by_cases hr : k.next_fire_at ≤ now
      · cases hp : st.pending_queue with
        | nil =>
          right
          exact ⟨k, dt, tl, rfl, by simp [GetNextTask, hq, hdq, hr, hp],
            by simp [GetNextTask, hq, hdq, hr, hp], hr⟩
        | cons p ps =>
          obtain ⟨o, t⟩ := p
          by_cases ho : o < k.order
          · left; simp [GetNextTask, hq, hdq, hr, hp, ho]
          · right
            exact ⟨k, dt, tl, rfl, by simp [GetNextTask, hq, hdq, hr, hp, ho],
              by simp [GetNextTask, hq, hdq, hr, hp, ho], hr⟩
      · left
        cases hp : st.pending_queue with
        | nil => simp [GetNextTask, hq, hdq, hr, hp]
        | cons p ps => simp [GetNextTask, hq, hdq, hr, hp]

/-- C4: a task posted with `PostDelayedTask(task, delay)` is recorded with
fire time `now + delay` (and the next posting ordinal), and `GetNextTask`
either leaves the delayed map untouched or removes and returns exactly its
head entry, whose fire time has already been reached — so a delayed task is
never returned while its fire time is still in the future, i.e. never before
its posting time plus its delay. -/
theorem postDelayed_never_early (st : TaskQueueState) (task : Task)
    (delay : Nat) (pnow now : Nat) :
    ((⟨pnow + delay, (st.thread_posting_order + 1) % U64⟩ :
        DelayedEntryTimeout), task) ∈
        (PostDelayedTask st task delay pnow).delayed_queue
    ∧ ((GetNextTask st now).2.delayed_queue = st.delayed_queue
       ∨ ∃ k dt rest, st.delayed_queue = (k, dt) :: rest
            ∧ (GetNextTask st now).2.delayed_queue = rest
            ∧ (GetNextTask st now).1.run_task = some dt
            ∧ k.next_fire_at ≤ now) := by
  constructor
  · simpa [PostDelayedTask] using
      delayedInsert_mem ⟨pnow + delay, (st.thread_posting_order + 1) % U64⟩
        task st.delayed_queue
  · exact getNextTask_delayed_shape st now

theorem lt_iff (a b : DelayedEntryTimeout) :
    DelayedEntryTimeout.lt a b = true ↔
      a.next_fire_at < b.next_fire_at ∨
        (a.next_fire_at = b.next_fire_at ∧ a.order < b.order) := by
  simp [DelayedEntryTimeout.lt]

theorem lt_asymm_false (a b : DelayedEntryTimeout)
    (h1 : DelayedEntryTimeout.lt a b = true)
    (h2 : DelayedEntryTimeout.lt b a = true) : False := by
  rw [lt_iff] at h1 h2
  omega

theorem delayedSorted_head_lt :
    ∀ (l : List (DelayedEntryTimeout × Task)) (a : DelayedEntryTimeout × Task),
      delayedSorted (a :: l) → ∀ b ∈ l, DelayedEntryTimeout.lt a.1 b.1 = true
  | [], _, _ => by simp
  | c :: rest, a, h => by
    rw [delayedSorted, List.chain'_cons] at h
    intro b hb
    rcases List.mem_cons.mp hb with hbc | hbr
    · rw [hbc]
      exact h.1
    · have hcb := delayedSorted_head_lt rest c h.2 b hbr
      have hac := h.1
      rw [lt_iff] at hcb hac ⊢
      omega

/-- C5: the delayed-map comparator orders entries by fire time with ties
broken by posting ordinal, so for two delayed entries with equal fire times
the one with the lower ordinal compares smaller and sits earlier in the
sorted map; `GetNextTask` removes only the map's head, hence it never
removes the later-posted entry while the earlier-posted one is still
present — FIFO order among same-instant delayed posts. -/
theorem delayed_fifo_same_instant (st : TaskQueueState) (now : Nat)
    (k1 k2 : DelayedEntryTimeout) (t1 t2 : Task)
    (hs : delayedSorted st.delayed_queue)
    (h1 : (k1, t1) ∈ st.delayed_queue) (h2 : (k2, t2) ∈ st.delayed_queue)
    (hfire : k1.next_fire_at = k2.next_fire_at) (hord : k1.order < k2.order) :
    DelayedEntryTimeout.lt k1 k2 = true
    ∧ (k2, t2) ∈ (GetNextTask st now).2.delayed_queue := by
  have hlt : DelayedEntryTimeout.lt k1 k2 = true := by
    rw [lt_iff]; omega
  refine ⟨hlt, ?_⟩
  rcases getNextTask_delayed_shape st now with hsame | ⟨k, dt, rest, hdq, hres, _, _⟩
  · rw [hsame]; exact h2
  · rw [hres]
    rw [hdq] at h1 h2 hs
    rcases List.mem_cons.mp h2 with h2h | h2r
    · exfalso
      have hk2 : k2 = k := by
        have := congrArg Prod.fst h2h
        simpa using this
      rcases List.mem_cons.mp h1 with h1h | h1r
      · have hk1 : k1 = k := by
          have := congrArg Prod.fst h1h
          simpa using this
        rw [hk1, hk2] at hord
        omega
      · have hk1lt := delayedSorted_head_lt rest (k, dt) hs (k1, t1) h1r
        rw [hk2] at hlt
        exact lt_asymm_false k k1 hk1lt hlt
    · exact h2r

/-- Witness for C5: a sorted two-entry delayed map whose entries share fire
time 5 with ordinals 1 and 2; the lower-ordinal entry compares smaller and a
`GetNextTask` step keeps the higher-ordinal entry in the map. -/
theorem delayed_fifo_same_instant_witness :
    (delayedSorted
        (({ thread_should_quit := false, thread_posting_order := 2,
            pending_queue := [],
            delayed_queue := [(⟨5, 1⟩, 30), (⟨5, 2⟩, 40)] } :
          TaskQueueState).delayed_queue)
      ∧ ((⟨5, 1⟩, 30) : DelayedEntryTimeout × Task) ∈
          [(⟨5, 1⟩, (30 : Task)), (⟨5, 2⟩, 40)]
      ∧ ((⟨5, 2⟩, 40) : DelayedEntryTimeout × Task) ∈
          [(⟨5, 1⟩, (30 : Task)), (⟨5, 2⟩, 40)])
    ∧ (DelayedEntryTimeout.lt ⟨5, 1⟩ ⟨5, 2⟩ = true
       ∧ ((⟨5, 2⟩, 40) : DelayedEntryTimeout × Task) ∈
          (GetNextTask
            { thread_should_quit := false, thread_posting_order := 2,
              pending_queue := [],
              delayed_queue := [(⟨5, 1⟩, 30), (⟨5, 2⟩, 40)] }
            9).2.delayed_queue) :=
  ⟨⟨by simp [delayedSorted, DelayedEntryTimeout.lt], by simp, by simp⟩,
    delayed_fifo_same_instant _ 9 ⟨5, 1⟩ ⟨5, 2⟩ 30 40
      (by simp [delayedSorted, DelayedEntryTimeout.lt]) (by simp) (by simp)
      rfl (by decide)⟩

theorem chain_lt_append_singleton :
    ∀ (l : List Nat) (m : Nat),
      List.Chain' (fun a b => a < b) l → (∀ o ∈ l, o < m) →
      List.Chain' (fun a b => a < b) (l ++ [m])
  | [], _, _, _ => by simp
  | [a], m, _, hm => by
    simp only [List.cons_append, List.nil_append, List.chain'_cons,
      List.chain'_singleton, and_true]
    exact hm a (by simp)
  | a :: b :: rest, m, hc, hm => by
    rw [List.cons_append, List.cons_append, List.chain'_cons]
    rw [List.chain'_cons] at hc
    exact ⟨hc.1, chain_lt_append_singleton (b :: rest) m hc.2
      (fun o ho => hm o (List.mem_cons_of_mem a ho))⟩

theorem runTrace_drains (now : Nat) :
    ∀ (l : List (Nat × Task)) (st : TaskQueueState),
      st.thread_should_quit = false → st.delayed_queue = [] →
      st.pending_queue = l →
      runTrace st now l.length = l.map Prod.snd
  | [], _, _, _, _ => by simp [runTrace]
  | (o, t) :: rest, st, hq, hd, hp => by
    have hstep : processTasksStep st now =
        (WorkerAction.run t, { st with pending_queue := rest }) := by
      simp [processTasksStep, GetNextTask, hq, hd, hp]
    simp only [List.length_cons, runTrace, hstep, List.map_cons,
      List.cons.injEq, true_and]
    exact runTrace_drains now rest { st with pending_queue := rest } hq hd rfl

/-- C3: `PostTask` and `PostDelayedTask` both stamp the task with the next
value of the queue's single posting counter, which (below the `uint64_t`
wrap) strictly exceeds every ordinal already stamped; the immediate queue
therefore stays strictly sorted by ordinal, and with only immediate tasks
pending the worker loop runs them exactly in queue (= posting = ordinal)
order. -/
theorem post_stamps_increasing_and_fifo (st : TaskQueueState) (t : Task)
    (d : Nat) (now : Nat)
    (hbound : st.thread_posting_order + 1 < U64)
    (hord : ∀ o ∈ ordinalsOf st, o ≤ st.thread_posting_order)
    (hchain : List.Chain' (fun a b => a < b) (st.pending_queue.map Prod.fst)) :
    (PostTask st t).thread_posting_order = st.thread_posting_order + 1
    ∧ (PostDelayedTask st t d now).thread_posting_order
        = st.thread_posting_order + 1
    ∧ (∀ o ∈ ordinalsOf st, o < (PostTask st t).thread_posting_order)
    ∧ List.Chain' (fun a b => a < b)
        ((PostTask st t).pending_queue.map Prod.fst)
    ∧ (st.thread_should_quit = false → st.delayed_queue = [] →
        runTrace st now st.pending_queue.length
          = st.pending_queue.map Prod.snd) := by
  have hmod : (st.thread_posting_order + 1) % U64
      = st.thread_posting_order + 1 := Nat.mod_eq_of_lt hbound
  refine ⟨?_, ?_, ?_, ?_, ?_⟩
  · simp [PostTask, hmod]
  · simp [PostDelayedTask, hmod]
  · intro o ho
    have h1 := hord o ho
    simp only [PostTask, hmod]
    omega
  · have hmap : (PostTask st t).pending_queue.map Prod.fst
        = st.pending_queue.map Prod.fst ++ [st.thread_posting_order + 1] := by
      simp [PostTask, hmod]
    rw [hmap]
    refine chain_lt_append_singleton _ _ hchain (fun o ho => ?_)
    have h1 := hord o (by simpa [ordinalsOf] using Or.inl ho)
    omega
  · intro hq hd
    exact runTrace_drains now st.pending_queue st hq hd rfl

/-- Witness for C3: a queue with counter 1 holding the single immediate task
`(1, 100)`; posting task 5 (or a delayed task 5 with delay 7) stamps
ordinal 2, the immediate queue stays sorted, and draining runs the pending
task in posting order. -/
theorem post_stamps_increasing_and_fifo_witness :
    ((({ thread_should_quit := false, thread_posting_order := 1,
         pending_queue := [(1, 100)], delayed_queue := [] } :
           TaskQueueState).thread_posting_order + 1 < U64)
      ∧ (∀ o ∈ ordinalsOf
            { thread_should_quit := false, thread_posting_order := 1,
              pending_queue := [(1, 100)], delayed_queue := [] },
          o ≤ (1 : Nat))
      ∧ List.Chain' (fun a b => a < b)
          ((({ thread_should_quit := false, thread_posting_order := 1,
               pending_queue := [(1, 100)], delayed_queue := [] } :
             TaskQueueState).pending_queue).map Prod.fst))
    ∧ ((PostTask
          { thread_should_quit := false, thread_posting_order := 1,
            pending_queue := [(1, 100)], delayed_queue := [] }
          5).thread_posting_order = 1 + 1
      ∧ (PostDelayedTask
          { thread_should_quit := false, thread_posting_order := 1,
            pending_queue := [(1, 100)], delayed_queue := [] }
          5 7 0).thread_posting_order = 1 + 1
      ∧ (∀ o ∈ ordinalsOf
            { thread_should_quit := false, thread_posting_order := 1,
              pending_queue := [(1, 100)], delayed_queue := [] },
          o < (PostTask
            { thread_should_quit := false, thread_posting_order := 1,
              pending_queue := [(1, 100)], delayed_queue := [] }
            5).thread_posting_order)
      ∧ List.Chain' (fun a b => a < b)
          ((PostTask
            { thread_should_quit := false, thread_posting_order := 1,
              pending_queue := [(1, 100)], delayed_queue := [] }
            5).pending_queue.map Prod.fst)
      ∧ ((({ thread_should_quit := false, thread_posting_order := 1,
             pending_queue := [(1, 100)], delayed_queue := [] } :
             TaskQueueState).thread_should_quit = false) →
          (({ thread_should_quit := false, thread_posting_order := 1,
              pending_queue := [(1, 100)], delayed_queue := [] } :
             TaskQueueState).delayed_queue = []) →
          runTrace
            { thread_should_quit := false, thread_posting_order := 1,
              pending_queue := [(1, 100)], delayed_queue := [] }
            0
            (({ thread_should_quit := false, thread_posting_order := 1,
                pending_queue := [(1, 100)], delayed_queue := [] } :
              TaskQueueState).pending_queue.length)
            = (({ thread_should_quit := false, thread_posting_order := 1,
                  pending_queue := [(1, 100)], delayed_queue := [] } :
                TaskQueueState).pending_queue.map Prod.snd))) :=
  ⟨⟨by decide, by decide, by simp⟩,
    post_stamps_increasing_and_fifo
      { thread_should_quit := false, thread_posting_order := 1,
        pending_queue := [(1, 100)], delayed_queue := [] }
      5 7 0 (by decide) (by decide) (by simp)⟩

/-- C6: `Delete` requires that the calling thread is not the queue's own
worker: under the precondition `IsCurrent() = false` the assertion
`assert(!IsCurrent())` passes and `Delete` sets the quit flag and frees the
queue, while a call from the worker's own thread trips the assertion. -/
theorem delete_requires_not_current (st : TaskQueueState) (isCurrent : Bool)
    (h : isCurrent = false) :
    Delete st isCurrent = some { st with thread_should_quit := true }
    ∧ Delete st true = none := by
  constructor
  · simp [Delete, h]
  · simp [Delete]

/-- Witness for C6: deleting an idle queue from a thread that is not the
worker passes the assertion and sets the quit flag. -/
theorem delete_requires_not_current_witness :
    ((false : Bool) = false)
    ∧ (Delete
        { thread_should_quit := false, thread_posting_order := 0,
          pending_queue := [], delayed_queue := [] } false =
        some { thread_should_quit := true, thread_posting_order := 0,
               pending_queue := [], delayed_queue := [] }
      ∧ Delete
          { thread_should_quit := false, thread_posting_order := 0,
            pending_queue := [], delayed_queue := [] } true = none) :=
  ⟨rfl, delete_requires_not_current
    { thread_should_quit := false, thread_posting_order := 0,
      pending_queue := [], delayed_queue := [] } false rfl⟩

open SignalModel

theorem dispatch_identity_eq (r : ConnRecord) :
    (dispatchRecord r).2.identity = r.identity := by
  simp only [dispatchRecord]
  split
  · split <;> rfl
  · rfl

theorem dispatch_singleShot_eq (r : ConnRecord) :
    (dispatchRecord r).2.singleShot = r.singleShot := by
  simp only [dispatchRecord]
  split
  · split <;> rfl
  · rfl

theorem dispatch_of_consumed (r : ConnRecord) (h : r.consumed = true) :
    dispatchRecord r = (false, r) := by
  simp [dispatchRecord, h]

theorem dispatch_consumed_mono (r : ConnRecord) (h : r.consumed = true) :
    (dispatchRecord r).2.consumed = true := by
  simp [dispatchRecord, h]

theorem dispatch_fst_true (r : ConnRecord) (h : (dispatchRecord r).1 = true) :
    r.alive = true ∧ r.blocked = false ∧ r.consumed = false := by
  by_cases hc : (r.alive && !r.blocked && !r.consumed) = true
  · simp only [Bool.and_eq_true, Bool.not_eq_true'] at hc
    exact ⟨hc.1.1, hc.1.2, hc.2⟩
  · rw [dispatchRecord, if_neg hc] at h
    exact absurd h (by simp)

theorem dispatch_invoked_consumed (r : ConnRecord)
    (h : (dispatchRecord r).1 = true) (hss : r.singleShot = true) :
    (dispatchRecord r).2.consumed = true := by
  by_cases hc : (r.alive && !r.blocked && !r.consumed) = true
  · simp [dispatchRecord, hc, hss]
  · rw [dispatchRecord, if_neg hc] at h
    exact absurd h (by simp)

theorem getD_map_dispatch :
    ∀ (l : List ConnRecord) (i : Nat),
      (l.map fun r => (dispatchRecord r).2).getD i default
        = (dispatchRecord (l.getD i default)).2
  | [], 0 => rfl
  | [], _ + 1 => rfl
  | _ :: _, 0 => rfl
  | _ :: rest, i + 1 => getD_map_dispatch rest i

theorem recordAt_emitSig (sig : SignalState) (i : Nat) :
    recordAt (emitSig sig) i = (dispatchRecord (recordAt sig i)).2 :=
  getD_map_dispatch sig.records i

theorem emitIter_succ :
    ∀ (n : Nat) (sig : SignalState),
      emitIter sig (n + 1) = emitSig (emitIter sig n)
  | 0, _ => rfl
  | n + 1, sig => emitIter_succ n (emitSig sig)

theorem recordAt_succ (sig : SignalState) (i n : Nat) :
    recordAt (emitIter sig (n + 1)) i
      = (dispatchRecord (recordAt (emitIter sig n) i)).2 := by
  rw [emitIter_succ]
  exact recordAt_emitSig _ i

theorem recordAt_singleShot_eq (sig : SignalState) (i : Nat) :
    ∀ n, (recordAt (emitIter sig n) i).singleShot
      = (recordAt sig i).singleShot
  | 0 => rfl
  | n + 1 => by
    rw [recordAt_succ, dispatch_singleShot_eq, recordAt_singleShot_eq sig i n]

theorem invCount_of_consumed :
    ∀ (n : Nat) (sig : SignalState) (i : Nat),
      (recordAt sig i).consumed = true → invCount sig i n = 0
  | 0, _, _, _ => rfl
  | n + 1, sig, i, h => by
    have h1 : (dispatchRecord (recordAt sig i)).1 = false := by
      simp [dispatchRecord, h]
    have h2 : (recordAt (emitSig sig) i).consumed = true := by
      rw [recordAt_emitSig]
      exact dispatch_consumed_mono _ h
    simp [invCount, h1, invCount_of_consumed n (emitSig sig) i h2]

theorem invCount_le_one_of_singleShot :
    ∀ (n : Nat) (sig : SignalState) (i : Nat),
      (recordAt sig i).singleShot = true → invCount sig i n ≤ 1
  | 0, _, _, _ => by simp [invCount]
  | n + 1, sig, i, h => by
    by_cases hb : (dispatchRecord (recordAt sig i)).1 = true
    · have hcons : (recordAt (emitSig sig) i).consumed = true := by
        rw [recordAt_emitSig]
        exact dispatch_invoked_consumed _ hb h
      simp [invCount, hb, invCount_of_consumed n (emitSig sig) i hcons]
    · have hb2 : (dispatchRecord (recordAt sig i)).1 = false := by
        simpa using hb
      have hss : (recordAt (emitSig sig) i).singleShot = true := by
        rw [recordAt_emitSig, dispatch_singleShot_eq]
        exact h
      simpa [invCount, hb2] using invCount_le_one_of_singleShot n (emitSig sig) i hss

/-- C8: a connection record carrying SingleShot runs at most once across any
number of emissions of its signal: the number of emissions that invoke the
record at position `i` is at most one, the `consumed` flag is monotone (it
transitions to true at most once), a consumed record is skipped by every
emission, and an emission that does invoke the record leaves `consumed`
true. -/
theorem singleShot_runs_at_most_once (sig : SignalState) (i n : Nat)
    (h : (recordAt sig i).singleShot = true) :
    invCount sig i n ≤ 1
    ∧ (∀ k, (recordAt (emitIter sig k) i).consumed = true →
        (recordAt (emitIter sig (k + 1)) i).consumed = true)
    ∧ (∀ k, (recordAt (emitIter sig k) i).consumed = true →
        invokedAt sig i k = false)
    ∧ (∀ k, invokedAt sig i k = true →
        (recordAt (emitIter sig (k + 1)) i).consumed = true) := by
  refine ⟨invCount_le_one_of_singleShot n sig i h, ?_, ?_, ?_⟩
  · intro k hk
    rw [recordAt_succ]
    exact dispatch_consumed_mono _ hk
  · intro k hk
    simp [invokedAt, dispatchRecord, hk]
  · intro k hk
    rw [recordAt_succ]
    refine dispatch_invoked_consumed _ hk ?_
    rw [recordAt_singleShot_eq]
    exact h

/-- Witness for C8: a signal with one alive SingleShot record; across three
emissions the record runs at most once, `consumed` is monotone, consumed
records are skipped, and an invoking emission leaves `consumed` true. -/
theorem singleShot_runs_at_most_once_witness :
    ((recordAt
        { records := [{ rid := 0, identity := 7, unique := false,
                        singleShot := true, blocked := false,
                        consumed := false, alive := true }],
          nextId := 1 } 0).singleShot = true)
    ∧ (invCount
          { records := [{ rid := 0, identity := 7, unique := false,
                          singleShot := true, blocked := false,
                          consumed := false, alive := true }],
            nextId := 1 } 0 3 ≤ 1
      ∧ (∀ k, (recordAt (emitIter
            { records := [{ rid := 0, identity := 7, unique := false,
                            singleShot := true, blocked := false,
                            consumed := false, alive := true }],
              nextId := 1 } k) 0).consumed = true →
          (recordAt (emitIter
            { records := [{ rid := 0, identity := 7, unique := false,
                            singleShot := true, blocked := false,
                            consumed := false, alive := true }],
              nextId := 1 } (k + 1)) 0).consumed = true)
      ∧ (∀ k, (recordAt (emitIter
            { records := [{ rid := 0, identity := 7, unique := false,
                            singleShot := true, blocked := false,
                            consumed := false, alive := true }],
              nextId := 1 } k) 0).consumed = true →
          invokedAt
            { records := [{ rid := 0, identity := 7, unique := false,
                            singleShot := true, blocked := false,
                            consumed := false, alive := true }],
              nextId := 1 } 0 k = false)
      ∧ (∀ k, invokedAt
            { records := [{ rid := 0, identity := 7, unique := false,
                            singleShot := true, blocked := false,
                            consumed := false, alive := true }],
              nextId := 1 } 0 k = true →
          (recordAt (emitIter
            { records := [{ rid := 0, identity := 7, unique := false,
                            singleShot := true, blocked := false,
                            consumed := false, alive := true }],
              nextId := 1 } (k + 1)) 0).consumed = true)) :=
  ⟨rfl,
    singleShot_runs_at_most_once
      { records := [{ rid := 0, identity := 7, unique := false,
                      singleShot := true, blocked := false,
                      consumed := false, alive := true }],
        nextId := 1 } 0 3 rfl⟩

/-- C7 counterexample: on the spec's connect semantics, deduplication
happens only when the policy of the NEW call carries Unique.  Connecting
identity 7 first WITH Unique and then WITHOUT it appends a second record:
the signal then holds two alive records with identity 7, refuting "either
call carries the Unique flag". -/
theorem unique_either_call_counterexample :
    countAlive
      (connect (connect { records := [], nextId := 0 } 7 true false).2
        7 false false).2 7 = 2 := by decide

theorem find?_append_none {p : ConnRecord → Bool} :
    ∀ (l1 l2 : List ConnRecord), l1.find? p = none →
      (l1 ++ l2).find? p = l2.find? p
  | [], _, _ => rfl
  | a :: l1, l2, h => by
    cases hpa : p a with
    | true => simp [List.find?, hpa] at h
    | false =>
      rw [List.cons_append]
      simp only [List.find?, hpa] at h ⊢
      exact find?_append_none l1 l2 h

theorem connect_fresh (sig : SignalState) (idt : Nat) (u s : Bool)
    (h0 : countAlive sig idt = 0) :
    connect sig idt u s =
      (sig.nextId,
        { records := sig.records ++
            [{ rid := sig.nextId, identity := idt, unique := u,
               singleShot := s, blocked := false, consumed := false,
               alive := true }],
          nextId := sig.nextId + 1 }) := by
  have hfind : findAlive idt sig.records = none :=
    List.find?_eq_none.mpr (List.countP_eq_zero.mp h0)
  cases u with
  | false => rfl
  | true => simp [connect, hfind]

/-- C7 (amended): for a pair of connect calls with the same identity on a
signal holding no alive record with that identity, where the SECOND call
carries the Unique flag, the second connect is a no-op that returns the
handle of the record the first call created, the signal holds exactly one
alive record with that identity, and one emission invokes a slot with that
identity exactly once. -/
theorem connect_unique_second_call (sig : SignalState) (idt : Nat)
    (u1 s1 s2 : Bool) (h0 : countAlive sig idt = 0) :
    (connect (connect sig idt u1 s1).2 idt true s2).1
        = (connect sig idt u1 s1).1
    ∧ (connect (connect sig idt u1 s1).2 idt true s2).2
        = (connect sig idt u1 s1).2
    ∧ countAlive (connect (connect sig idt u1 s1).2 idt true s2).2 idt = 1
    ∧ invokedCountFor (connect (connect sig idt u1 s1).2 idt true s2).2 idt
        = 1 := by
  have hall := List.countP_eq_zero.mp h0
  have hfind : findAlive idt sig.records = none :=
    List.find?_eq_none.mpr hall
  rw [connect_fresh sig idt u1 s1 h0]
  have hfind2 : findAlive idt
      (sig.records ++
        [{ rid := sig.nextId, identity := idt, unique := u1,
           singleShot := s1, blocked := false, consumed := false,
           alive := true }]) =
      some { rid := sig.nextId, identity := idt, unique := u1,
             singleShot := s1, blocked := false, consumed := false,
             alive := true } := by
    unfold findAlive
    rw [find?_append_none _ _ hfind]
    simp [List.find?]
  refine ⟨?_, ?_, ?_, ?_⟩
  · simp [connect, hfind2]
  · simp [connect, hfind2]
  · have h0p : sig.records.countP
        (fun r => r.alive && r.identity == idt) = 0 := h0
    simp only [connect, hfind2]
    simp only [countAlive, List.countP_append, h0p]
    simp
    intro a ha halive hid
    exact hall a ha (by simp [halive, hid])
  · have hzero : sig.records.countP
        (fun r => (dispatchRecord r).1 && r.identity == idt) = 0 := by
      rw [List.countP_eq_zero]
      intro r hr hcontra
      rw [Bool.and_eq_true] at hcontra
      have halive := (dispatch_fst_true r hcontra.1).1
      exact hall r hr (by rw [Bool.and_eq_true]; exact ⟨halive, hcontra.2⟩)
    simp only [connect, hfind2]
    simp only [invokedCountFor, List.countP_append, hzero]
    simp [dispatchRecord]
    intro a ha hinv hid
    by_cases hc : (a.alive = true ∧ a.blocked = false) ∧ a.consumed = false
    · exact hall a ha (by simp [hc.1.1, hid])
    · rw [if_neg hc] at hinv
      simp at hinv

/-- Witness for C7 (amended): identity 7 connected twice on an empty signal,
the second call with Unique — the second connect returns the first handle,
leaves the signal unchanged with one alive identity-7 record, and one
emission invokes identity 7 exactly once. -/
theorem connect_unique_second_call_witness :
    (countAlive { records := [], nextId := 0 } 7 = 0)
    ∧ ((connect (connect { records := [], nextId := 0 } 7 true false).2
          7 true false).1
        = (connect { records := [], nextId := 0 } 7 true false).1
      ∧ (connect (connect { records := [], nextId := 0 } 7 true false).2
          7 true false).2
        = (connect { records := [], nextId := 0 } 7 true false).2
      ∧ countAlive
          (connect (connect { records := [], nextId := 0 } 7 true false).2
            7 true false).2 7 = 1
      ∧ invokedCountFor
          (connect (connect { records := [], nextId := 0 } 7 true false).2
            7 true false).2 7 = 1) :=
  ⟨rfl, connect_unique_second_call { records := [], nextId := 0 } 7
    true false false rfl⟩

end SignalSlot
